import Mathlib
/-!
# Verification of the dersp DERP relay handshake protocol

Shallow embedding of `src/dersp/src/proto/mod.rs` (the HTTP-upgrade
handshake, header validation, client-info exchange and the client-side
key exchange) together with models of the parts of the repository that
are referenced from `proto/mod.rs` but whose sources are not available
(the `proto::data` wire types, the `crypto` layer and the `inout`
frame reader).  Bytes are `Nat`s (values below 256 on the wire), byte
strings are `List Nat`, and asynchronous reads/writes are made explicit:
each read call is given the chunk of bytes it returns, and each function
returns the bytes it wrote alongside its result.
-/

/-- ASCII/UTF-8 bytes of a string literal (all literals used are ASCII). -/
def strBytes (s : String) : List Nat :=
  s.data.map Char.toNat

/-- Modelled from the spec: the frame-type tag byte of the wire protocol
(`proto::data::FrameType`, not in the available sources).  The spec
enumerates `ServerKey`, `ClientInfo`, `ServerInfo`, `PeerPresent`,
`ForwardPacket`, `WatchConns` and says the numeric codes are an
implementation choice that must be stable; the standard DERP codes are
used.  `Unknown` covers every unrecognised tag byte, matching the
catch-all `ty =>` arms in `proto/mod.rs`. -/
inductive FrameType where
  | ServerKey
  | ClientInfo
  | ServerInfo
  | PeerPresent
  | ForwardPacket
  | WatchConns
  | Unknown (b : Nat)
deriving DecidableEq, Repr

/-- The tag byte of a frame type. -/
def FrameType.tagByte : FrameType → Nat
  | .ServerKey => 1
  | .ClientInfo => 2
  | .ServerInfo => 3
  | .PeerPresent => 9
  | .ForwardPacket => 10
  | .WatchConns => 16
  | .Unknown b => b

/-- Modelled from the spec: recover a frame type from its tag byte
(`FrameType::get_frame_type` reads the first byte of the buffer). -/
def frameTypeOfByte (b : Nat) : FrameType :=
  if b = 1 then .ServerKey
  else if b = 2 then .ClientInfo
  else if b = 3 then .ServerInfo
  else if b = 9 then .PeerPresent
  else if b = 10 then .ForwardPacket
  else if b = 16 then .WatchConns
  else .Unknown b

/-- A frame type that is one of the enumerated protocol frames. -/
def FrameType.isKnown : FrameType → Bool
  | .Unknown _ => false
  | _ => true

/-- Modelled from the spec: 4-byte big-endian encoding of the payload
length (`[frame_type:1][length][payload:length bytes]`, fixed-width
length field). -/
def lenBytes (n : Nat) : List Nat :=
  [n / 16777216 % 256, n / 65536 % 256, n / 256 % 256, n % 256]

/-- Modelled from the spec: encoding of a `Frame` — one tag byte, the
payload length, then exactly that many payload bytes
(`Frame::encode` via the codec crate, sources not available). -/
def encodeFrame (t : FrameType) (p : List Nat) : List Nat :=
  t.tagByte :: (lenBytes p.length ++ p)

/-- Modelled from the spec: decoding of a `Frame` from a byte slice.
Returns the frame type, the payload, and the bytes left over after the
frame; fails when fewer bytes than the declared payload length remain. -/
def decodeFrame (bs : List Nat) : Option (FrameType × List Nat × List Nat) :=
  match bs with
  | t :: b0 :: b1 :: b2 :: b3 :: rest =>
    let len := ((b0 * 256 + b1) * 256 + b2) * 256 + b3
    if len ≤ rest.length then
      some (frameTypeOfByte t, rest.take len, rest.drop len)
    else
      none
  | _ => none

/-- Errors of the handshake functions in `proto/mod.rs`.  Each constructor
corresponds to one distinct `anyhow` error site, so distinctness of error
causes is distinctness of constructors. -/
inductive DerpErr where
  | emptyInitialMessage
  | initialMessageTooBig
  | httpParseError
  | badUpgradeValue
  | badConnectionValue
  | invalidUtf8
  | unexpectedFrame (t : FrameType)
  | decodeError
  | openFailed
  | badVersion
  | badMagic
deriving DecidableEq, Repr

instance {ε α : Type} [DecidableEq ε] [DecidableEq α] : DecidableEq (Except ε α) :=
  fun x y =>
    match x, y with
    | .ok a, .ok b =>
      if h : a = b then isTrue (by rw [h]) else isFalse (fun hh => h (by injection hh))
    | .ok _, .error _ => isFalse Except.noConfusion
    | .error _, .ok _ => isFalse Except.noConfusion
    | .error e, .error f =>
      if h : e = f then isTrue (by rw [h]) else isFalse (fun hh => h (by injection hh))

/-- An HTTP header as produced by `httparse`: the name as it appears on
the wire (case preserved) and the raw value bytes. -/
structure HttpHeader where
  name : List Nat
  value : List Nat
deriving DecidableEq, Repr

/-- Lowercase an ASCII byte, as `str::to_ascii_lowercase` does per byte. -/
def lowerByte (b : Nat) : Nat :=
  if 65 ≤ b ∧ b ≤ 90 then b + 32 else b

/-- Bytewise ASCII lowercasing of a byte string. -/
def lowerBytes (v : List Nat) : List Nat :=
  v.map lowerByte

/-- A UTF-8 continuation byte. -/
def isContByte (b : Nat) : Bool :=
  128 ≤ b && b ≤ 191

/-- UTF-8 validation automaton: `pending` is the list of allowed ranges
for the continuation bytes of the scalar currently being read (empty
when between scalars).  Encodes RFC 3629 exactly: no overlong forms, no
surrogates, at most U+10FFFF. -/
def utf8Run : List (Nat × Nat) → List Nat → Bool
  | [], [] => true
  | _ :: _, [] => false
  | (lo, hi) :: ps, b :: rest =>
    if lo ≤ b ∧ b ≤ hi then utf8Run ps rest else false
  | [], b :: rest =>
    if b ≤ 127 then utf8Run [] rest
    else if 194 ≤ b ∧ b ≤ 223 then utf8Run [(128, 191)] rest
    else if b = 224 then utf8Run [(160, 191), (128, 191)] rest
    else if 225 ≤ b ∧ b ≤ 236 then utf8Run [(128, 191), (128, 191)] rest
    else if b = 237 then utf8Run [(128, 159), (128, 191)] rest
    else if 238 ≤ b ∧ b ≤ 239 then utf8Run [(128, 191), (128, 191)] rest
    else if b = 240 then utf8Run [(144, 191), (128, 191), (128, 191)] rest
    else if 241 ≤ b ∧ b ≤ 243 then utf8Run [(128, 191), (128, 191), (128, 191)] rest
    else if b = 244 then utf8Run [(128, 143), (128, 191), (128, 191)] rest
    else false

/-- UTF-8 validity of a byte string, as checked by `str::from_utf8`. -/
def isValidUtf8 (v : List Nat) : Bool :=
  utf8Run [] v

/-- The `Connection` check of `validate_headers` (`proto/mod.rs` lines
87-90): decode the value as UTF-8, lowercase it, require `upgrade`. -/
def validate_header_conn (h : HttpHeader) : Except DerpErr Unit :=
  if h.name = strBytes "Connection" then
    if isValidUtf8 h.value then
      if lowerBytes h.value = strBytes "upgrade" then .ok () else .error .badConnectionValue
    else .error .invalidUtf8
  else .ok ()

/-- The per-header body of the loop in `validate_headers` (`proto/mod.rs`
lines 78-91): the `Upgrade` check followed by the `Connection` check. -/
def validate_header (h : HttpHeader) : Except DerpErr Unit :=
  if h.name = strBytes "Upgrade" then
    if isValidUtf8 h.value then
      if lowerBytes h.value = strBytes "websocket" ∨ lowerBytes h.value = strBytes "derp" then
        validate_header_conn h
      else .error .badUpgradeValue
    else .error .invalidUtf8
  else validate_header_conn h

/-- `validate_headers` from `proto/mod.rs` lines 77-94: check every
header in order, failing on the first offending one.  (The Rust code
iterates over all 16 slots; unused slots have the empty name, which
matches neither `Upgrade` nor `Connection`, so iterating over the parsed
headers only is equivalent.) -/
def validate_headers : List HttpHeader → Except DerpErr Unit
  | [] => .ok ()
  | h :: rest =>
    match validate_header h with
    | .ok _ => validate_headers rest
    | .error e => .error e

/-- The specification's acceptance condition for one header: if named
`Upgrade` the value must case-insensitively equal `websocket` or `derp`,
if named `Connection` it must case-insensitively equal `upgrade`
(case-insensitive equality of byte strings is equality after bytewise
ASCII lowercasing). -/
def headerOk (h : HttpHeader) : Prop :=
  (h.name = strBytes "Upgrade" →
      lowerBytes h.value = strBytes "websocket" ∨ lowerBytes h.value = strBytes "derp") ∧
  (h.name = strBytes "Connection" → lowerBytes h.value = strBytes "upgrade")

instance (h : HttpHeader) : Decidable (headerOk h) :=
  inferInstanceAs (Decidable
    ((h.name = strBytes "Upgrade" →
        lowerBytes h.value = strBytes "websocket" ∨ lowerBytes h.value = strBytes "derp") ∧
     (h.name = strBytes "Connection" → lowerBytes h.value = strBytes "upgrade")))

/-- Split a byte string at the first CRLF; `none` when no CRLF occurs. -/
def splitLine : List Nat → Option (List Nat × List Nat)
  | [] => none
  | b :: rest =>
    if b = 13 then
      match rest with
      | 10 :: r2 => some ([], r2)
      | _ =>
        match splitLine rest with
        | some (l, r) => some (b :: l, r)
        | none => none
    else
      match splitLine rest with
      | some (l, r) => some (b :: l, r)
      | none => none

/-- Split a byte string at the first occurrence of `sep`. -/
def splitAtByte (sep : Nat) : List Nat → Option (List Nat × List Nat)
  | [] => none
  | b :: rest =>
    if b = sep then some ([], rest)
    else
      match splitAtByte sep rest with
      | some (l, r) => some (b :: l, r)
      | none => none

/-- HTTP token characters, allowed in method and header names. -/
def isTokenChar (b : Nat) : Bool :=
  (48 ≤ b && b ≤ 57) || (65 ≤ b && b ≤ 90) || (97 ≤ b && b ≤ 122) ||
  b = 33 || b = 35 || b = 36 || b = 37 || b = 38 || b = 39 || b = 42 ||
  b = 43 || b = 45 || b = 46 || b = 94 || b = 95 || b = 96 || b = 124 || b = 126

/-- Characters allowed in a request target. -/
def isUriChar (b : Nat) : Bool :=
  33 ≤ b && b ≤ 126

/-- Characters allowed in a header value (no control bytes). -/
def isValueChar (b : Nat) : Bool :=
  b = 9 || (32 ≤ b && b ≤ 255)

/-- Space or horizontal tab. -/
def isWsByte (b : Nat) : Bool :=
  b = 32 || b = 9

/-- Strip leading and trailing spaces/tabs from a header value, as
`httparse` does. -/
def trimValue (v : List Nat) : List Nat :=
  ((v.dropWhile isWsByte).reverse.dropWhile isWsByte).reverse

/-- Parse one `name: value` header line, as `httparse` does: the name is
a non-empty token before the colon, the value is the rest with
surrounding whitespace stripped and no control bytes. -/
def parseHeaderLine (line : List Nat) : Option HttpHeader :=
  match splitAtByte 58 line with
  | some ([], _) => none
  | some (name, valRaw) =>
    if name.all isTokenChar then
      let value := trimValue valRaw
      if value.all isValueChar then some ⟨name, value⟩ else none
    else none
  | none => none

/-- Parse header lines until the blank line, with at most `slots` header
slots remaining; a header line once the slots are exhausted is
`httparse`'s too-many-headers error (`none`). -/
def parseHeaders : Nat → List Nat → Option (List HttpHeader × List Nat)
  | slots, bs =>
    if bs.take 2 = [13, 10] then some ([], bs.drop 2)
    else
      match slots with
      | 0 => none
      | slots' + 1 =>
        match splitLine bs with
        | some (line, rest) =>
          match parseHeaderLine line with
          | some h =>
            match parseHeaders slots' rest with
            | some (hs, r) => some (h :: hs, r)
            | none => none
          | none => none
        | none => none

/-- Parse the request line `METHOD SP URI SP HTTP/1.1 CRLF`, returning
the bytes after it. -/
def parseRequestLine (bs : List Nat) : Option (List Nat) :=
  match splitLine bs with
  | some (line, rest) =>
    match splitAtByte 32 line with
    | some (method, rest2) =>
      match splitAtByte 32 rest2 with
      | some (uri, version) =>
        if method ≠ [] ∧ method.all isTokenChar ∧ uri ≠ [] ∧ uri.all isUriChar ∧
            version = strBytes "HTTP/1.1" then
          some rest
        else none
      | none => none
    | none => none
  | none => none

/-- Model of `httparse::Request::parse` with a 16-slot header array, as
used in `finalize_http_phase` (`proto/mod.rs` lines 41-44): parse the
request line and up to 16 headers; `none` covers both a parse error and
an incomplete request (`body_start.is_complete()` false), each of which
fails the handshake. -/
def parseRequest (buf : List Nat) : Option (List HttpHeader) :=
  match parseRequestLine buf with
  | some rest =>
    match parseHeaders 16 rest with
    | some (hs, _) => some hs
    | none => none
  | none => none

/-- Public keys are 32 wire bytes. -/
abbrev PublicKey := List Nat

/-- Secret keys are 32 bytes. -/
abbrev SecretKey := List Nat

/-- Modelled from the spec: derive the public key of a key pair
(`SecretKey::public` of the `crypto` module, not in the available
sources); the Diffie-Hellman scalar-point computation is abstracted by
an injective bytewise function. -/
def publicOf (sk : SecretKey) : PublicKey :=
  sk.map (fun b => (b + 1) % 256)

/-- One lowercase hex digit (value below 16). -/
def hexDigitByte (n : Nat) : Nat :=
  if n < 10 then 48 + n else 87 + n

/-- Two lowercase hex digits of one byte, as Rust `write!("{:02x?}", b)`
prints a `u8`. -/
def hexByte (b : Nat) : List Nat :=
  [hexDigitByte (b / 16 % 16), hexDigitByte (b % 16)]

/-- The hex encoding of a byte string (`hex_key` in
`finalize_http_phase`, built byte by byte). -/
def hexBytes (pk : List Nat) : List Nat :=
  pk.flatMap hexByte

/-- Modelled from the spec: the magic byte sequence of a `ServerKey`
frame (UTF-8 of the DERP magic string). -/
def DERP_MAGIC : List Nat :=
  [68, 69, 82, 80, 240, 159, 148, 145]

/-- Modelled from the spec: the payload of a `ServerKey` frame — the
magic byte sequence followed by the server public key
(`ServerKey::new(pk).frame()`). -/
def serverKeyPayload (pk : PublicKey) : List Nat :=
  DERP_MAGIC ++ pk

/-- The upgrade response built in `finalize_http_phase` (lines 50-71):
the five fixed header lines, the hex-encoded server public key, the
blank line, then the encoded `ServerKey` frame, all flattened into one
byte vector for a single write. -/
def upgradeResponse (sk : SecretKey) : List Nat :=
  strBytes "HTTP/1.1 101 Switching Protocols\r\n" ++
  strBytes "Upgrade: DERP\r\n" ++
  strBytes "Connection: Upgrade\r\n" ++
  strBytes "Derp-Version: 2\r\n" ++
  strBytes "Derp-Public-Key: " ++
  hexBytes (publicOf sk) ++
  strBytes "\r\n\r\n" ++
  encodeFrame .ServerKey (serverKeyPayload (publicOf sk))

/-- The read buffer of `finalize_http_phase`/`read_client_info`: a
zero-initialised `size`-byte array into which one read call delivered
`chunk` (at most `size` bytes). -/
def padBuf (size : Nat) (chunk : List Nat) : List Nat :=
  chunk.take size ++ List.replicate (size - chunk.length) 0

/-- `finalize_http_phase` from `proto/mod.rs` lines 32-75, with the
single `rw.read` call made explicit: `chunk` is what the read of the
4096-byte buffer returned.  Returns the handshake outcome together with
the bytes written to the connection (the single `write_all` happens only
after every check passed). -/
def finalize_http_phase (chunk : List Nat) (sk : SecretKey) :
    Except DerpErr Unit × List Nat :=
  if min chunk.length 4096 = 0 then (.error .emptyInitialMessage, [])
  else if 4096 ≤ min chunk.length 4096 then (.error .initialMessageTooBig, [])
  else
    match parseRequest (padBuf 4096 chunk) with
    | none => (.error .httpParseError, [])
    | some headers =>
      match validate_headers headers with
      | .error e => (.error e, [])
      | .ok _ => (.ok (), upgradeResponse sk)


/-- Lexicographic order on byte strings (used only to order the two
public keys inside the symbolic shared secret). -/
def listLe : List Nat → List Nat → Bool
  | [], _ => true
  | _ :: _, [] => false
  | a :: ta, b :: tb => a < b || (a = b && listLe ta tb)

/-- Modelled from the spec: the Diffie-Hellman shared secret between the
owner of `sk` and the owner of `pk`, symbolic — the two public keys in
lexicographic order, so it is the same from either side. -/
def sharedSecret (sk : SecretKey) (pk : PublicKey) : List Nat :=
  if listLe (publicOf sk) pk then publicOf sk ++ pk else pk ++ publicOf sk

/-- Modelled from the spec: `crypto` sealing — authenticated box
encryption of `plaintext` from the owner of `sk` to the owner of `pk`
with a per-message nonce.  Symbolic: the ciphertext binds the shared
secret and the nonce to the plaintext. -/
def sealBox (plaintext : List Nat) (sk : SecretKey) (pk : PublicKey)
    (nonce : List Nat) : List Nat :=
  sharedSecret sk pk ++ nonce ++ plaintext

/-- Modelled from the spec: `crypto` opening — fails closed unless the
shared secret and the nonce match the ciphertext. -/
def openBox (ciphertext : List Nat) (sk : SecretKey) (pk : PublicKey)
    (nonce : List Nat) : Option (List Nat) :=
  let tag := sharedSecret sk pk ++ nonce
  if ciphertext.take tag.length = tag then some (ciphertext.drop tag.length)
  else none

/-- Modelled from the spec: the plaintext payload sealed inside a
`ClientInfo` frame — the protocol version and the `meshkey` string as
its bytes (the empty string is `[]`). -/
structure ClientPayload where
  version : Nat
  meshkey : List Nat
deriving DecidableEq, Repr

/-- The protocol version carried in the client payload (`Derp-Version: 2`). -/
def PROTOCOL_VERSION : Nat := 2

/-- Serialization of the client payload inside the sealed box. -/
def encodePayload (p : ClientPayload) : List Nat :=
  p.version :: p.meshkey

/-- Deserialization of the client payload; inverse of `encodePayload`. -/
def decodePayload : List Nat → Option ClientPayload
  | v :: mk => some ⟨v, mk⟩
  | [] => none

/-- Modelled from the spec: a `ClientInfo` frame body — the client
public key in the clear, a nonce, and the ciphertext sealing the
payload. -/
structure ClientInfoData where
  public_key : PublicKey
  nonce : List Nat
  ciphertext : List Nat
deriving DecidableEq, Repr

/-- Nonce size on the wire. -/
def NONCE_SIZE : Nat := 24

/-- Public key size on the wire. -/
def KEY_SIZE : Nat := 32

/-- The wire payload of a `ClientInfo` frame. -/
def clientInfoWire (ci : ClientInfoData) : List Nat :=
  ci.public_key ++ ci.nonce ++ ci.ciphertext

/-- Decode a `ClientInfo` struct from a frame payload: 32 key bytes, 24
nonce bytes, then the ciphertext. -/
def decodeClientInfo (payload : List Nat) : Option ClientInfoData :=
  if KEY_SIZE + NONCE_SIZE ≤ payload.length then
    some ⟨payload.take KEY_SIZE, (payload.drop KEY_SIZE).take NONCE_SIZE,
          payload.drop (KEY_SIZE + NONCE_SIZE)⟩
  else none

/-- The decrypted and validated client info (`complete_info` in
`read_client_info`). -/
structure CompleteClientInfo where
  public_key : PublicKey
  payload : ClientPayload
deriving DecidableEq, Repr

/-- Modelled from the spec: `ClientInfo::complete` — decrypt the
ciphertext with the server secret key and the embedded client public
key, decode the payload, validate the protocol version. -/
def completeClientInfo (ci : ClientInfoData) (sk : SecretKey) :
    Except DerpErr CompleteClientInfo :=
  match openBox ci.ciphertext sk ci.public_key ci.nonce with
  | none => .error .openFailed
  | some pt =>
    match decodePayload pt with
    | none => .error .decodeError
    | some p =>
      if p.version = PROTOCOL_VERSION then .ok ⟨ci.public_key, p⟩
      else .error .badVersion

/-- `read_client_info` from `proto/mod.rs` lines 124-152, with the
single `reader.read` call made explicit: `chunk` is what the read into
the zero-initialised 1024-byte buffer returned.  The returned byte count
is discarded (`let _ = reader.read(..)`), the frame type is taken from
the first buffer byte, and on `ClientInfo` the frame is decoded from the
whole buffer, completed with the server secret key, and the mesh key is
`None` exactly when the decrypted `meshkey` field is empty. -/
def read_client_info (chunk : List Nat) (sk : SecretKey) :
    Except DerpErr (PublicKey × Option (List Nat)) :=
  match frameTypeOfByte ((padBuf 1024 chunk).headD 0) with
  | FrameType.ClientInfo =>
    match decodeFrame (padBuf 1024 chunk) with
    | some (_, payload, _) =>
      match decodeClientInfo payload with
      | some ci =>
        match completeClientInfo ci sk with
        | .ok info =>
          .ok (info.public_key,
               if info.payload.meshkey = [] then none else some info.payload.meshkey)
        | .error e => .error e
      | none => .error .decodeError
    | none => .error .decodeError
  | ty => .error (.unexpectedFrame ty)

/-- The bytes written by `write_server_info` (`proto/mod.rs` lines
163-167): the encoded default `ServerInfo` frame; modelled from the
spec, the default `ServerInfo` payload is empty. -/
def serverInfoFrame : List Nat :=
  encodeFrame .ServerInfo []

/-- `handle_handshake` from `proto/mod.rs` lines 19-30: the HTTP phase
(reading chunk `c1`), then the client-info phase (reading chunk `c2`),
then `write_server_info`; returns the authenticated public key and
optional mesh key together with all bytes written on the connection, in
order. -/
def handle_handshake (c1 c2 : List Nat) (sk : SecretKey) :
    Except DerpErr (PublicKey × Option (List Nat)) × List Nat :=
  match finalize_http_phase c1 sk with
  | (.error e, w) => (.error e, w)
  | (.ok _, w) =>
    match read_client_info c2 sk with
    | .error e => (.error e, w)
    | .ok r => (.ok r, w ++ serverInfoFrame)

/-- A message yielded by the incremental frame reader (`DerpReader` of
the `inout` module, modelled from the spec): the frame type and the full
frame bytes. -/
structure DerpMessage where
  ty : FrameType
  buffer : List Nat
deriving DecidableEq, Repr

/-- Modelled from the spec: the hard maximum declared payload length the
incremental reader accepts. -/
def MAX_FRAME_SIZE : Nat := 1048576

/-- Modelled from the spec: `DerpReader::get_next_message` — consume one
complete frame from the stream, rejecting frames whose declared length
exceeds the hard maximum; returns the message and the remaining
stream. -/
def getNextMessage (stream : List Nat) : Option (DerpMessage × List Nat) :=
  match decodeFrame stream with
  | some (ty, payload, rest) =>
    if payload.length ≤ MAX_FRAME_SIZE then
      some (⟨ty, encodeFrame ty payload⟩, rest)
    else none
  | none => none

/-- Modelled from the spec: a `ServerKey` struct — the magic byte
sequence and the server public key. -/
structure ServerKeyData where
  magic : List Nat
  public_key : PublicKey
deriving DecidableEq, Repr

/-- Decode a `ServerKey` struct from a frame payload: 8 magic bytes then
the 32-byte public key. -/
def decodeServerKey (payload : List Nat) : Option ServerKeyData :=
  if 40 ≤ payload.length then
    some ⟨payload.take 8, (payload.drop 8).take 32⟩
  else none

/-- `read_server_key` from `proto/mod.rs` lines 106-122: read one frame,
require type `ServerKey` (any other type is an unexpected-message
error), decode the `ServerKey`, validate its magic bytes, and return the
server public key. -/
def read_server_key (stream : List Nat) : Except DerpErr PublicKey :=
  match getNextMessage stream with
  | none => .error .decodeError
  | some (msg, _) =>
    match msg.ty with
    | .ServerKey =>
      match decodeFrame msg.buffer with
      | some (_, payload, _) =>
        match decodeServerKey payload with
        | some skd =>
          if skd.magic = DERP_MAGIC then .ok skd.public_key else .error .badMagic
        | none => .error .decodeError
      | none => .error .decodeError
    | ty => .error (.unexpectedFrame ty)

/-- Modelled from the spec: `ClientInfo::new(secret_key, server_key,
meshkey)` — build the client info by sealing the payload (protocol
version plus mesh key, empty when none) to the server's public key; the
randomly generated nonce is an explicit argument. -/
def clientInfoNew (sk : SecretKey) (serverKey : PublicKey)
    (meshkey : Option (List Nat)) (nonce : List Nat) : ClientInfoData :=
  { public_key := publicOf sk
    nonce := nonce
    ciphertext :=
      sealBox (encodePayload ⟨PROTOCOL_VERSION, meshkey.getD []⟩) sk serverKey nonce }

/-- The bytes written by `write_client_info` (`proto/mod.rs` lines
154-161): the encoded `ClientInfo` frame. -/
def clientInfoFrame (ci : ClientInfoData) : List Nat :=
  encodeFrame .ClientInfo (clientInfoWire ci)

/-- `exchange_keys` from `proto/mod.rs` lines 220-231: read the server
key first, then build and write the client info, and return the server
public key; paired with the bytes written to the server. -/
def exchange_keys (stream : List Nat) (sk : SecretKey)
    (meshkey : Option (List Nat)) (nonce : List Nat) :
    Except DerpErr (PublicKey × List Nat) :=
  match read_server_key stream with
  | .error e => .error e
  | .ok serverKey =>
    .ok (serverKey, clientInfoFrame (clientInfoNew sk serverKey meshkey nonce))

/-- A concrete well-formed upgrade request used by the witnesses. -/
def reqBytes : List Nat :=
  strBytes "GET / HTTP/1.1\r\nHost: x\r\n\r\n"

/-- A concrete 32-byte server secret key used by the witnesses. -/
def skEx : SecretKey :=
  List.replicate 32 7

/-- A concrete 32-byte client secret key used by the witnesses. -/
def clientSkEx : SecretKey :=
  List.replicate 32 9

/-- A concrete nonce used by the witnesses. -/
def nonceEx : List Nat :=
  List.replicate 24 1

/-- The client info a client with key `clientSkEx` sends to the server
with key `skEx` (no mesh key). -/
def clientInfoEx : ClientInfoData :=
  clientInfoNew clientSkEx (publicOf skEx) none nonceEx

/-- The wire bytes of `clientInfoEx`, a valid `ClientInfo` frame. -/
def c2Ex : List Nat :=
  clientInfoFrame clientInfoEx

/-- A concrete upgrade request whose header names use different
capitalizations of `Upgrade`/`Connection` with disallowed values. -/
def reqCaseEx : List Nat :=
  strBytes "GET / HTTP/1.1\r\nCONNECTION: close\r\nupgrade: close\r\n\r\n"

/-- A well-formed header for serialization: non-empty token name and a
control-free value.  Used to quantify over requests in the
too-many-headers property. -/
def wfHeader (h : HttpHeader) : Prop :=
  h.name ≠ [] ∧ h.name.all isTokenChar = true ∧ h.value.all isValueChar = true

instance (h : HttpHeader) : Decidable (wfHeader h) :=
  inferInstanceAs (Decidable
    (h.name ≠ [] ∧ h.name.all isTokenChar = true ∧ h.value.all isValueChar = true))

/-- The wire bytes of one `name: value` header line. -/
def headerLineBytes (h : HttpHeader) : List Nat :=
  h.name ++ 58 :: 32 :: h.value ++ [13, 10]

/-- The wire bytes of a header block. -/
def headerBlockBytes (hs : List HttpHeader) : List Nat :=
  hs.flatMap headerLineBytes

/-- The wire bytes of a full HTTP/1.1 request with the given method,
target, headers and body. -/
def serializeRequest (method uri : List Nat) (hs : List HttpHeader)
    (body : List Nat) : List Nat :=
  method ++ 32 :: uri ++ 32 :: strBytes "HTTP/1.1" ++ 13 :: 10 ::
    (headerBlockBytes hs ++ 13 :: 10 :: body)

-- ### Auxiliary lemmas

theorem frameTypeOfByte_tagByte (t : FrameType) (h : t.isKnown = true) :
    frameTypeOfByte t.tagByte = t := by
  cases t <;> simp_all [FrameType.isKnown, FrameType.tagByte, frameTypeOfByte]

theorem decodeLen_lenBytes (n : Nat) (hn : n < 4294967296) :
    ((n / 16777216 % 256 * 256 + n / 65536 % 256) * 256 + n / 256 % 256) * 256
      + n % 256 = n := by
  omega

theorem allAscii_isValidUtf8 (v : List Nat) (hv : ∀ b ∈ v, b ≤ 127) :
    isValidUtf8 v = true := by
  unfold isValidUtf8
  induction v with
  | nil => rfl
  | cons b rest ih =>
    have hb : b ≤ 127 := hv b (by simp)
    rw [utf8Run, if_pos hb]
    exact ih (fun x hx => hv x (by simp [hx]))

theorem lowerBytes_ascii (v w : List Nat) (hlw : lowerBytes v = w)
    (hw : ∀ b ∈ w, b ≤ 127) : ∀ b ∈ v, b ≤ 127 := by
  intro b hb
  have : lowerByte b ∈ w := by
    rw [← hlw]; exact List.mem_map_of_mem lowerByte hb
  have := hw _ this
  unfold lowerByte at this
  split at this <;> omega

theorem validate_header_ok_iff (h : HttpHeader) :
    validate_header h = .ok () ↔ headerOk h := by
  unfold validate_header validate_header_conn headerOk
  by_cases hU : h.name = strBytes "Upgrade" <;> by_cases hC : h.name = strBytes "Connection"
  · exfalso; rw [hU] at hC; exact absurd hC (by decide)
  · rw [if_pos hU]
    constructor
    · intro hok
      refine ⟨fun _ => ?_, fun hc => absurd hc hC⟩
      by_cases hval : lowerBytes h.value = strBytes "websocket" ∨
          lowerBytes h.value = strBytes "derp"
      · exact hval
      · exfalso
        by_cases hu8 : isValidUtf8 h.value = true
        · rw [if_pos hu8, if_neg hval] at hok
          exact Except.noConfusion hok
        · rw [if_neg hu8] at hok
          exact Except.noConfusion hok
    · rintro ⟨hup, _⟩
      have hval := hup hU
      have hascii : ∀ b ∈ h.value, b ≤ 127 := by
        cases hval with
        | inl hh => exact lowerBytes_ascii _ _ hh (by decide)
        | inr hh => exact lowerBytes_ascii _ _ hh (by decide)
      rw [if_pos (allAscii_isValidUtf8 _ hascii), if_pos hval, if_neg hC]
  · rw [if_neg hU, if_pos hC]
    constructor
    · intro hok
      refine ⟨fun hu => absurd hu hU, fun _ => ?_⟩
      by_cases hval : lowerBytes h.value = strBytes "upgrade"
      · exact hval
      · exfalso
        by_cases hu8 : isValidUtf8 h.value = true
        · rw [if_pos hu8, if_neg hval] at hok
          exact Except.noConfusion hok
        · rw [if_neg hu8] at hok
          exact Except.noConfusion hok
    · rintro ⟨_, hconn⟩
      have hval := hconn hC
      have hascii : ∀ b ∈ h.value, b ≤ 127 :=
        lowerBytes_ascii _ _ hval (by decide)
      rw [if_pos (allAscii_isValidUtf8 _ hascii), if_pos hval]
  · rw [if_neg hU, if_neg hC]
    exact ⟨fun _ => ⟨fun hu => absurd hu hU, fun hc => absurd hc hC⟩, fun _ => rfl⟩

theorem validate_headers_cons (h : HttpHeader) (t : List HttpHeader) :
    validate_headers (h :: t) = .ok () ↔
      validate_header h = .ok () ∧ validate_headers t = .ok () := by
  rw [validate_headers]
  cases hv : validate_header h with
  | ok u => cases u; simp
  | error e => simp

theorem validate_headers_ok_iff (hs : List HttpHeader) :
    validate_headers hs = .ok () ↔ ∀ h ∈ hs, headerOk h := by
  induction hs with
  | nil => simp [validate_headers]
  | cons h t ih =>
    rw [validate_headers_cons, validate_header_ok_iff, ih]
    simp

theorem finalize_empty (chunk : List Nat) (sk : SecretKey) (h : chunk.length = 0) :
    finalize_http_phase chunk sk = (.error .emptyInitialMessage, []) := by
  unfold finalize_http_phase
  rw [if_pos (by omega)]

theorem finalize_too_big (chunk : List Nat) (sk : SecretKey) (h : 4096 ≤ chunk.length) :
    finalize_http_phase chunk sk = (.error .initialMessageTooBig, []) := by
  unfold finalize_http_phase
  rw [if_neg (by omega), if_pos (by omega)]

theorem finalize_parse_none (chunk : List Nat) (sk : SecretKey)
    (h1 : chunk.length ≠ 0) (h2 : chunk.length < 4096)
    (hp : parseRequest (padBuf 4096 chunk) = none) :
    finalize_http_phase chunk sk = (.error .httpParseError, []) := by
  unfold finalize_http_phase
  rw [if_neg (by omega), if_neg (by omega), hp]

theorem finalize_ok_resp (chunk : List Nat) (sk : SecretKey) (w : List Nat)
    (h : finalize_http_phase chunk sk = (.ok (), w)) : w = upgradeResponse sk := by
  unfold finalize_http_phase at h
  split at h
  · simp at h
  · split at h
    · simp at h
    · split at h
      · simp at h
      · split at h
        · simp at h
        · simp only [Prod.mk.injEq] at h
          exact h.2.symm

theorem hexBytes_length (pk : List Nat) : (hexBytes pk).length = 2 * pk.length := by
  unfold hexBytes
  induction pk with
  | nil => rfl
  | cons b r ih =>
    simp only [List.flatMap_cons, List.length_append, List.length_cons, hexByte,
      List.length_nil, ih]
    omega

theorem hexDigitByte_mem (m : Nat) (hm : m < 16) :
    hexDigitByte m ∈ strBytes "0123456789abcdef" := by
  interval_cases m <;> decide

theorem hexBytes_mem (pk : List Nat) :
    ∀ b ∈ hexBytes pk, b ∈ strBytes "0123456789abcdef" := by
  intro b hb
  unfold hexBytes at hb
  rcases List.mem_flatMap.mp hb with ⟨x, _, hbx⟩
  unfold hexByte at hbx
  simp only [List.mem_cons, List.not_mem_nil, or_false] at hbx
  rcases hbx with rfl | rfl
  · exact hexDigitByte_mem _ (Nat.mod_lt _ (by norm_num))
  · exact hexDigitByte_mem _ (Nat.mod_lt _ (by norm_num))

theorem decodeFrame_ty (bs : List Nat) (t : FrameType) (p r : List Nat)
    (h : decodeFrame bs = some (t, p, r)) : t = frameTypeOfByte (bs.headD 0) := by
  rcases bs with _ | ⟨a, _ | ⟨b0, _ | ⟨b1, _ | ⟨b2, _ | ⟨b3, rest⟩⟩⟩⟩⟩
  · simp [decodeFrame] at h
  · simp [decodeFrame] at h
  · simp [decodeFrame] at h
  · simp [decodeFrame] at h
  · simp [decodeFrame] at h
  · simp only [decodeFrame] at h
    split at h
    · simp only [Option.some.injEq, Prod.mk.injEq] at h
      rw [List.headD_cons]
      exact h.1.symm
    · cases h

theorem read_client_info_ok (chunk : List Nat) (sk : SecretKey) (pk : PublicKey)
    (mk : Option (List Nat)) (h : read_client_info chunk sk = .ok (pk, mk)) :
    ∃ payload rest ci info,
      decodeFrame (padBuf 1024 chunk) = some (.ClientInfo, payload, rest) ∧
      decodeClientInfo payload = some ci ∧
      completeClientInfo ci sk = .ok info ∧
      pk = info.public_key ∧
      mk = (if info.payload.meshkey = [] then none else some info.payload.meshkey) := by
  unfold read_client_info at h
  split at h
  · rename_i hty
    split at h
    · rename_i tfst payload trest hdec
      have hts : tfst = FrameType.ClientInfo := by
        have h2 := decodeFrame_ty _ _ _ _ hdec
        rw [hty] at h2
        exact h2
      subst hts
      split at h
      · rename_i ci hci
        split at h
        · rename_i info hinfo
          simp only [Except.ok.injEq, Prod.mk.injEq] at h
          exact ⟨payload, trest, ci, info, hdec, hci, hinfo, h.1.symm, h.2.symm⟩
        · simp at h
      · simp at h
    · simp at h
  · simp at h

theorem padBuf_take (n : Nat) (chunk : List Nat) :
    padBuf n (chunk.take n) = padBuf n chunk := by
  unfold padBuf
  rw [List.take_take, min_self]
  have h : n - (chunk.take n).length = n - chunk.length := by
    rw [List.length_take]; omega
  rw [h]

theorem padBuf_append_zeros (n k : Nat) (chunk : List Nat) (h : chunk.length + k ≤ n) :
    padBuf n (chunk ++ List.replicate k 0) = padBuf n chunk := by
  unfold padBuf
  have h1 : (chunk ++ List.replicate k 0).length = chunk.length + k := by simp
  rw [List.take_of_length_le (by simp; omega), List.take_of_length_le (by omega), h1,
      List.append_assoc, ← List.replicate_add]
  have h2 : k + (n - (chunk.length + k)) = n - chunk.length := by omega
  rw [h2]

theorem read_client_info_oversize (p : List Nat) (sk : SecretKey)
    (hlen : 1024 < (encodeFrame .ClientInfo p).length) (hb : p.length < 4294967296) :
    read_client_info (encodeFrame .ClientInfo p) sk = .error .decodeError := by
  have hplen : 1019 < p.length := by
    simp [encodeFrame, lenBytes] at hlen
    omega
  have hbuf : padBuf 1024 (encodeFrame .ClientInfo p) =
      2 :: (lenBytes p.length ++ p.take 1019) := by
    unfold padBuf
    have hz : 1024 - (encodeFrame .ClientInfo p).length = 0 := by
      simp [encodeFrame, lenBytes]
      omega
    rw [hz, List.replicate_zero, List.append_nil]
    rw [show encodeFrame .ClientInfo p = 2 :: (lenBytes p.length ++ p) from rfl]
    rw [show (1024 : Nat) = 1023 + 1 from rfl, List.take_succ_cons]
    congr 1
  unfold read_client_info
  rw [hbuf, List.headD_cons]
  simp only [show frameTypeOfByte 2 = FrameType.ClientInfo from by decide]
  simp only [List.cons_append, List.nil_append, lenBytes, decodeFrame]
  rw [decodeLen_lenBytes p.length hb]
  rw [if_neg (by rw [List.length_take]; omega)]

theorem splitLine_cons (b : Nat) (l : List Nat) :
    splitLine (b :: l) =
      if b = 13 then
        match l with
        | 10 :: r2 => some ([], r2)
        | _ =>
          match splitLine l with
          | some (x, r) => some (b :: x, r)
          | none => none
      else
        match splitLine l with
        | some (x, r) => some (b :: x, r)
        | none => none := rfl

theorem splitAtByte_cons (sep a : Nat) (l : List Nat) :
    splitAtByte sep (a :: l) =
      if a = sep then some ([], l)
      else
        match splitAtByte sep l with
        | some (x, r) => some (a :: x, r)
        | none => none := rfl

theorem splitLine_append (xs rest : List Nat) (hx : ∀ b ∈ xs, b ≠ 13) :
    splitLine (xs ++ 13 :: 10 :: rest) = some (xs, rest) := by
  induction xs with
  | nil =>
    rw [List.nil_append, splitLine_cons, if_pos rfl]
  | cons a t ih =>
    have ha : a ≠ 13 := hx a (by simp)
    rw [List.cons_append, splitLine_cons, if_neg ha,
        ih (fun b hb => hx b (by simp [hb]))]

theorem splitAtByte_append (sep : Nat) (xs rest : List Nat)
    (hx : ∀ b ∈ xs, b ≠ sep) :
    splitAtByte sep (xs ++ sep :: rest) = some (xs, rest) := by
  induction xs with
  | nil =>
    rw [List.nil_append, splitAtByte_cons, if_pos rfl]
  | cons a t ih =>
    have ha : a ≠ sep := hx a (by simp)
    rw [List.cons_append, splitAtByte_cons, if_neg ha,
        ih (fun b hb => hx b (by simp [hb]))]

theorem tokenChar_ne13 (b : Nat) (h : isTokenChar b = true) : b ≠ 13 := by
  intro hb
  rw [hb] at h
  exact absurd h (by decide)

theorem tokenChar_ne32 (b : Nat) (h : isTokenChar b = true) : b ≠ 32 := by
  intro hb
  rw [hb] at h
  exact absurd h (by decide)

theorem valueChar_ne13 (b : Nat) (h : isValueChar b = true) : b ≠ 13 := by
  intro hb
  rw [hb] at h
  exact absurd h (by decide)

theorem uriChar_ne13 (b : Nat) (h : isUriChar b = true) : b ≠ 13 := by
  intro hb
  rw [hb] at h
  exact absurd h (by decide)

theorem uriChar_ne32 (b : Nat) (h : isUriChar b = true) : b ≠ 32 := by
  intro hb
  rw [hb] at h
  exact absurd h (by decide)

theorem parseHeaders_eq (slots : Nat) (bs : List Nat) :
    parseHeaders slots bs =
      if bs.take 2 = [13, 10] then some ([], bs.drop 2)
      else
        match slots with
        | 0 => none
        | slots' + 1 =>
          match splitLine bs with
          | some (line, rest) =>
            match parseHeaderLine line with
            | some h =>
              match parseHeaders slots' rest with
              | some (hs, r) => some (h :: hs, r)
              | none => none
            | none => none
          | none => none := by
  rw [parseHeaders.eq_def]

theorem parseHeaders_overflow (hs : List HttpHeader) (slots : Nat) (rest : List Nat)
    (hwf : ∀ h ∈ hs, wfHeader h) (hlen : slots < hs.length) :
    parseHeaders slots (headerBlockBytes hs ++ rest) = none := by
  induction hs generalizing slots with
  | nil => simp at hlen
  | cons h t ih =>
    obtain ⟨hne, hname, hval⟩ := hwf h (by simp)
    obtain ⟨n0, ntail, hn⟩ : ∃ n0 ntail, h.name = n0 :: ntail := by
      cases hcs : h.name with
      | nil => exact absurd hcs hne
      | cons a b => exact ⟨a, b, rfl⟩
    have hnametok : ∀ b ∈ h.name, isTokenChar b = true := List.all_eq_true.mp hname
    have hvaltok : ∀ b ∈ h.value, isValueChar b = true := List.all_eq_true.mp hval
    have hn013 : n0 ≠ 13 := tokenChar_ne13 n0 (hnametok n0 (by rw [hn]; simp))
    have hshape : headerBlockBytes (h :: t) ++ rest =
        (n0 :: (ntail ++ 58 :: 32 :: h.value)) ++
          13 :: 10 :: (headerBlockBytes t ++ rest) := by
      simp [headerBlockBytes, headerLineBytes, hn, List.append_assoc]
    rw [hshape]
    rw [parseHeaders_eq]
    rw [if_neg (by
      rw [List.cons_append, show (2 : Nat) = 1 + 1 from rfl, List.take_succ_cons]
      intro heq
      injection heq with h1 _
      exact hn013 h1)]
    cases slots with
    | zero => rfl
    | succ slots' =>
      have hsplit : splitLine ((n0 :: (ntail ++ 58 :: 32 :: h.value)) ++
          13 :: 10 :: (headerBlockBytes t ++ rest)) =
          some (n0 :: (ntail ++ 58 :: 32 :: h.value), headerBlockBytes t ++ rest) := by
        apply splitLine_append
        intro b hb
        simp only [List.mem_cons, List.mem_append] at hb
        rcases hb with rfl | hb | hb
        · exact hn013
        · exact tokenChar_ne13 b (hnametok b (by rw [hn]; simp [hb]))
        · rcases hb with rfl | hb
          · decide
          · rcases hb with rfl | hb
            · decide
            · exact valueChar_ne13 b (hvaltok b hb)
      rw [hsplit]
      have hih := ih slots' (fun x hx => hwf x (by simp [hx])) (by simp at hlen; omega)
      cases hpl : parseHeaderLine (n0 :: (ntail ++ 58 :: 32 :: h.value)) with
      | none => simp only [hpl]
      | some hh => simp only [hpl, hih]

theorem parseRequestLine_serialize (method uri tail2 : List Nat)
    (hm1 : method ≠ []) (hm2 : method.all isTokenChar = true)
    (hu1 : uri ≠ []) (hu2 : uri.all isUriChar = true) :
    parseRequestLine (method ++ 32 :: uri ++ 32 :: strBytes "HTTP/1.1" ++
      13 :: 10 :: tail2) = some tail2 := by
  have hmtok : ∀ b ∈ method, isTokenChar b = true := List.all_eq_true.mp hm2
  have hutok : ∀ b ∈ uri, isUriChar b = true := List.all_eq_true.mp hu2
  have hline : method ++ 32 :: uri ++ 32 :: strBytes "HTTP/1.1" ++ 13 :: 10 :: tail2 =
      (method ++ 32 :: (uri ++ 32 :: strBytes "HTTP/1.1")) ++ 13 :: 10 :: tail2 := by
    simp [List.append_assoc]
  have h13 : ∀ b ∈ method ++ 32 :: (uri ++ 32 :: strBytes "HTTP/1.1"), b ≠ 13 := by
    intro b hb
    simp only [List.mem_cons, List.mem_append] at hb
    rcases hb with hb | rfl | hb | rfl | hb
    · exact tokenChar_ne13 b (hmtok b hb)
    · decide
    · exact uriChar_ne13 b (hutok b hb)
    · decide
    · have hv : ∀ x ∈ strBytes "HTTP/1.1", x ≠ 13 := by decide
      exact hv b hb
  unfold parseRequestLine
  rw [hline]
  simp only [splitLine_append _ _ h13,
    splitAtByte_append 32 method _ (fun b hb => tokenChar_ne32 b (hmtok b hb)),
    splitAtByte_append 32 uri _ (fun b hb => uriChar_ne32 b (hutok b hb))]
  rw [if_pos ⟨hm1, hm2, hu1, hu2, trivial⟩]

theorem parseRequest_too_many (method uri body : List Nat) (hs : List HttpHeader)
    (hm1 : method ≠ []) (hm2 : method.all isTokenChar = true)
    (hu1 : uri ≠ []) (hu2 : uri.all isUriChar = true)
    (hwf : ∀ h ∈ hs, wfHeader h) (hcount : 16 < hs.length) :
    parseRequest (serializeRequest method uri hs body) = none := by
  unfold parseRequest serializeRequest
  simp only [parseRequestLine_serialize method uri (headerBlockBytes hs ++ 13 :: 10 :: body)
      hm1 hm2 hu1 hu2,
    parseHeaders_overflow hs 16 (13 :: 10 :: body) hwf hcount]

-- ### Claim theorems

/-- Claim C7: for every valid payload `p` and known frame type `t`,
decoding the encoding of the frame with type `t` and payload `p` yields
`p` back (with type `t` and nothing left over), and the encoding has the
shape one type byte, a payload length, then exactly that many payload
bytes. -/
theorem frame_encode_decode_roundtrip (t : FrameType) (p : List Nat)
    (hk : t.isKnown = true) (hlen : p.length < 4294967296) :
    decodeFrame (encodeFrame t p) = some (t, p, []) ∧
    encodeFrame t p = t.tagByte :: (lenBytes p.length ++ p) := by
  refine ⟨?_, rfl⟩
  simp only [encodeFrame, lenBytes, List.cons_append, List.nil_append, decodeFrame]
  rw [decodeLen_lenBytes p.length hlen]
  simp [frameTypeOfByte_tagByte t hk]

/-- Witness for C7 at a concrete frame type and payload. -/
theorem frame_encode_decode_roundtrip_witness :
    FrameType.isKnown .ClientInfo = true ∧ ([5, 6, 7] : List Nat).length < 4294967296 ∧
    decodeFrame (encodeFrame .ClientInfo [5, 6, 7]) = some (.ClientInfo, [5, 6, 7], []) := by
  refine ⟨by decide, by decide, ?_⟩
  exact (frame_encode_decode_roundtrip .ClientInfo [5, 6, 7] (by decide) (by decide)).1

/-- Claim C3: header validation succeeds iff every header named
`Upgrade` has a value case-insensitively equal to `websocket` or `derp`
and every header named `Connection` has a value case-insensitively equal
to `upgrade`; in particular `Connection: close` is rejected and a header
list with no `Upgrade` and no `Connection` header at all is accepted. -/
theorem validate_headers_spec (hs : List HttpHeader) :
    (validate_headers hs = .ok () ↔ ∀ h ∈ hs, headerOk h) ∧
    validate_headers [⟨strBytes "Connection", strBytes "close"⟩] =
      .error .badConnectionValue ∧
    ((∀ h ∈ hs, h.name ≠ strBytes "Upgrade" ∧ h.name ≠ strBytes "Connection") →
      validate_headers hs = .ok ()) := by
  refine ⟨validate_headers_ok_iff hs, by decide, fun hall => ?_⟩
  refine (validate_headers_ok_iff hs).mpr (fun h hx => ?_)
  exact ⟨fun hu => absurd hu (hall h hx).1, fun hc => absurd hc (hall h hx).2⟩

/-- Witness for C3: a header list with neither an `Upgrade` nor a
`Connection` header is accepted, and `Connection: close` is rejected. -/
theorem validate_headers_spec_witness :
    validate_headers [⟨strBytes "Host", strBytes "example"⟩] = .ok () ∧
    validate_headers [⟨strBytes "Connection", strBytes "close"⟩] =
      .error .badConnectionValue := by
  have h := validate_headers_spec [⟨strBytes "Host", strBytes "example"⟩]
  exact ⟨h.2.2 (by decide), h.2.1⟩


/-- Claim C5: for every connection the handshake fails when the initial
HTTP read yields zero bytes or delivers the full 4096-byte bound (a
message exceeding the bound can fill the buffer at most), and when the
bytes read do not parse as a complete HTTP request; in all these cases
no upgrade response is written. -/
theorem finalize_http_failure_spec (chunk : List Nat) (sk : SecretKey) :
    (chunk.length = 0 → finalize_http_phase chunk sk = (.error .emptyInitialMessage, [])) ∧
    (4096 ≤ chunk.length → finalize_http_phase chunk sk = (.error .initialMessageTooBig, [])) ∧
    (chunk.length ≠ 0 → chunk.length < 4096 → parseRequest (padBuf 4096 chunk) = none →
      finalize_http_phase chunk sk = (.error .httpParseError, [])) :=
  ⟨finalize_empty chunk sk, finalize_too_big chunk sk, finalize_parse_none chunk sk⟩

/-- Witness for C5: a zero-byte read, a 4096-byte read, and an
unparseable request all fail without writing. -/
theorem finalize_http_failure_spec_witness :
    finalize_http_phase [] [] = (.error .emptyInitialMessage, []) ∧
    finalize_http_phase (List.replicate 4096 65) [] = (.error .initialMessageTooBig, []) ∧
    finalize_http_phase [71, 13, 10] [] = (.error .httpParseError, []) :=
  ⟨(finalize_http_failure_spec [] []).1 rfl,
   (finalize_http_failure_spec (List.replicate 4096 65) []).2.1
     (List.length_replicate 4096 65).symm.le,
   (finalize_http_failure_spec [71, 13, 10] []).2.2 (by simp) (by simp) (by decide)⟩

/-- Claim C2: for every accepted upgrade request the reply is exactly
the five fixed header lines, `Derp-Public-Key: ` followed by the hex
encoding of the server public key, a blank line, and then, in the same
single write, the encoded `ServerKey` frame; the hex encoding is 64
lowercase hex characters when the key has 32 bytes; and everything the
handshake writes later on the connection comes after this reply, so the
`ServerKey` frame is on the wire before any client frame is processed. -/
theorem upgrade_response_spec (chunk c2 : List Nat) (sk : SecretKey) (w : List Nat)
    (h : finalize_http_phase chunk sk = (.ok (), w)) :
    w = strBytes "HTTP/1.1 101 Switching Protocols\r\n" ++ strBytes "Upgrade: DERP\r\n" ++
        strBytes "Connection: Upgrade\r\n" ++ strBytes "Derp-Version: 2\r\n" ++
        strBytes "Derp-Public-Key: " ++ hexBytes (publicOf sk) ++ strBytes "\r\n\r\n" ++
        encodeFrame .ServerKey (DERP_MAGIC ++ publicOf sk) ∧
    ((publicOf sk).length = 32 → (hexBytes (publicOf sk)).length = 64) ∧
    (∀ b ∈ hexBytes (publicOf sk), b ∈ strBytes "0123456789abcdef") ∧
    (∀ res wAll, handle_handshake chunk c2 sk = (res, wAll) → ∃ tail, wAll = w ++ tail) := by
  have hw := finalize_ok_resp chunk sk w h
  refine ⟨by rw [hw]; rfl, fun h32 => by rw [hexBytes_length, h32], hexBytes_mem _, ?_⟩
  intro res wAll hh
  unfold handle_handshake at hh
  rw [h] at hh
  cases hrc : read_client_info c2 sk with
  | error e =>
    rw [hrc] at hh
    refine ⟨[], ?_⟩
    have h2 := congrArg Prod.snd hh
    simpa using h2.symm
  | ok r =>
    rw [hrc] at hh
    refine ⟨serverInfoFrame, ?_⟩
    exact (congrArg Prod.snd hh).symm

set_option maxRecDepth 40000 in
/-- Witness for C2 at a concrete accepted request and key. -/
theorem upgrade_response_spec_witness :
    upgradeResponse skEx =
      strBytes "HTTP/1.1 101 Switching Protocols\r\n" ++ strBytes "Upgrade: DERP\r\n" ++
      strBytes "Connection: Upgrade\r\n" ++ strBytes "Derp-Version: 2\r\n" ++
      strBytes "Derp-Public-Key: " ++ hexBytes (publicOf skEx) ++ strBytes "\r\n\r\n" ++
      encodeFrame .ServerKey (DERP_MAGIC ++ publicOf skEx) ∧
    (hexBytes (publicOf skEx)).length = 64 :=
  have h := upgrade_response_spec reqBytes [] skEx (upgradeResponse skEx) (by decide)
  ⟨h.1, h.2.1 (by decide)⟩


/-- Claim C1: whenever `handle_handshake` succeeds, the server has
written a `ServerInfo` frame to the stream, and it returns the
authenticated client public key together with the mesh key, the mesh key
being `none` exactly when the decrypted `ClientInfo` payload's `meshkey`
field is empty and `some` of that string otherwise. -/
theorem handle_handshake_spec (c1 c2 : List Nat) (sk : SecretKey) (pk : PublicKey)
    (mk : Option (List Nat)) (w : List Nat)
    (h : handle_handshake c1 c2 sk = (.ok (pk, mk), w)) :
    (∃ w0, w = w0 ++ encodeFrame .ServerInfo []) ∧
    ∃ payload rest ci info,
      decodeFrame (padBuf 1024 c2) = some (.ClientInfo, payload, rest) ∧
      decodeClientInfo payload = some ci ∧
      completeClientInfo ci sk = .ok info ∧
      pk = info.public_key ∧
      mk = (if info.payload.meshkey = [] then none else some info.payload.meshkey) := by
  unfold handle_handshake at h
  split at h
  · simp at h
  · rename_i w1 hfin
    split at h
    · simp at h
    · rename_i r hrc
      simp only [Prod.mk.injEq, Except.ok.injEq] at h
      obtain ⟨hr, hw⟩ := h
      refine ⟨⟨w1, hw.symm⟩, ?_⟩
      exact read_client_info_ok c2 sk pk mk (hr ▸ hrc)

set_option maxRecDepth 100000 in
/-- Witness for C1 at a concrete successful handshake. -/
theorem handle_handshake_spec_witness :
    (∃ w0, upgradeResponse skEx ++ serverInfoFrame = w0 ++ encodeFrame .ServerInfo []) ∧
    ∃ payload rest ci info,
      decodeFrame (padBuf 1024 c2Ex) = some (.ClientInfo, payload, rest) ∧
      decodeClientInfo payload = some ci ∧
      completeClientInfo ci skEx = .ok info ∧
      publicOf clientSkEx = info.public_key ∧
      (none : Option (List Nat)) =
        (if info.payload.meshkey = [] then none else some info.payload.meshkey) :=
  handle_handshake_spec reqBytes c2Ex skEx (publicOf clientSkEx) none
    (upgradeResponse skEx ++ serverInfoFrame) (by decide)

/-- Claim C4: in the `AwaitingClientInfo` phase the server decodes one
frame from the single read; a frame whose type is not `ClientInfo`
yields the unexpected-frame error, an error distinct from the
payload-decode error; otherwise the decoded frame is completed by
decrypting with the server's secret key and the client public key
embedded in the frame. -/
theorem read_client_info_dispatch (chunk : List Nat) (sk : SecretKey) :
    (∀ t, frameTypeOfByte ((padBuf 1024 chunk).headD 0) = t → t ≠ .ClientInfo →
      read_client_info chunk sk = .error (.unexpectedFrame t)) ∧
    (∀ t, DerpErr.unexpectedFrame t ≠ DerpErr.decodeError) ∧
    (∀ payload rest ci, decodeFrame (padBuf 1024 chunk) = some (.ClientInfo, payload, rest) →
      decodeClientInfo payload = some ci →
      read_client_info chunk sk =
        (match completeClientInfo ci sk with
         | .ok info => .ok (info.public_key,
             if info.payload.meshkey = [] then none else some info.payload.meshkey)
         | .error e => .error e)) := by
  refine ⟨?_, fun t h => DerpErr.noConfusion h, ?_⟩
  · intro t hty hne
    unfold read_client_info
    rw [hty]
    cases t <;> first | exact absurd rfl hne | rfl
  · intro payload rest ci hdec hci
    have hty : frameTypeOfByte ((padBuf 1024 chunk).headD 0) = .ClientInfo :=
      (decodeFrame_ty _ _ _ _ hdec).symm
    unfold read_client_info
    simp only [hty, hdec, hci]

set_option maxRecDepth 100000 in
/-- Witness for C4: a `ServerInfo`-typed buffer is rejected with the
unexpected-frame error, and a valid `ClientInfo` frame is completed. -/
theorem read_client_info_dispatch_witness :
    read_client_info [3] skEx = .error (.unexpectedFrame .ServerInfo) ∧
    read_client_info c2Ex skEx = .ok (publicOf clientSkEx, none) := by
  constructor
  · exact (read_client_info_dispatch [3] skEx).1 .ServerInfo (by decide) (by decide)
  · have h := (read_client_info_dispatch c2Ex skEx).2.2 (clientInfoWire clientInfoEx)
      (List.replicate 874 0) clientInfoEx (by decide) (by decide)
    rw [h]
    decide


set_option maxRecDepth 100000 in
/-- Claim C9: `read_client_info` performs a single read of at most 1024
bytes and discards the byte count — its result depends only on the
zero-padded 1024-byte buffer: bytes beyond 1024 are ignored, a short
read followed by zeros is indistinguishable from a longer read of the
same bytes, a `ClientInfo` frame longer than 1024 bytes is never
accepted, and a zero-byte read produces the generic unexpected-frame
error for tag 0, not a distinct empty-message error. -/
theorem read_client_info_buffer_spec (chunk : List Nat) (sk : SecretKey) :
    (read_client_info chunk sk = read_client_info (chunk.take 1024) sk) ∧
    (∀ k, chunk.length + k ≤ 1024 →
      read_client_info chunk sk = read_client_info (chunk ++ List.replicate k 0) sk) ∧
    (∀ p, 1024 < (encodeFrame .ClientInfo p).length → p.length < 4294967296 →
      read_client_info (encodeFrame .ClientInfo p) sk = .error .decodeError) ∧
    read_client_info [] sk = .error (.unexpectedFrame (.Unknown 0)) ∧
    read_client_info [] sk = read_client_info [0] sk := by
  refine ⟨?_, ?_, fun p h1 h2 => read_client_info_oversize p sk h1 h2, ?_, ?_⟩
  · unfold read_client_info
    rw [padBuf_take]
  · intro k hk
    unfold read_client_info
    rw [padBuf_append_zeros 1024 k chunk hk]
  · have hs : frameTypeOfByte ((padBuf 1024 ([] : List Nat)).headD 0) =
        FrameType.Unknown 0 := by decide
    unfold read_client_info
    rw [hs]
  · have hpb : padBuf 1024 ([] : List Nat) = padBuf 1024 [0] := by decide
    unfold read_client_info
    rw [hpb]

set_option maxRecDepth 100000 in
/-- Witness for C9: zero padding after a short read is invisible, and an
oversized `ClientInfo` frame is rejected with a decode error. -/
theorem read_client_info_buffer_spec_witness :
    read_client_info [2] skEx = read_client_info ([2] ++ List.replicate 1 0) skEx ∧
    read_client_info (encodeFrame .ClientInfo (List.replicate 1020 7)) skEx =
      .error .decodeError :=
  ⟨(read_client_info_buffer_spec [2] skEx).2.1 1 (by decide),
   (read_client_info_buffer_spec [] skEx).2.2.1 (List.replicate 1020 7)
     (by simp [encodeFrame, lenBytes]) (by simp)⟩

/-- Claim C6: on the client/mesh-initiating side, `exchange_keys` first
reads a `ServerKey` frame — any other frame type or an invalid magic
sequence fails — then builds a `ClientInfo` by sealing the payload
(protocol version plus mesh key, if any) to the server's public key,
writes it, and returns that server public key. -/
theorem exchange_keys_spec (stream : List Nat) (sk : SecretKey)
    (mk : Option (List Nat)) (nonce : List Nat) :
    (∀ msg rest, getNextMessage stream = some (msg, rest) → msg.ty ≠ .ServerKey →
      read_server_key stream = .error (.unexpectedFrame msg.ty)) ∧
    (∀ msg rest payload r2 skd, getNextMessage stream = some (msg, rest) →
      msg.ty = .ServerKey → decodeFrame msg.buffer = some (.ServerKey, payload, r2) →
      decodeServerKey payload = some skd → skd.magic ≠ DERP_MAGIC →
      read_server_key stream = .error .badMagic) ∧
    (∀ e, read_server_key stream = .error e →
      exchange_keys stream sk mk nonce = .error e) ∧
    (∀ spk, read_server_key stream = .ok spk →
      exchange_keys stream sk mk nonce =
        .ok (spk, encodeFrame .ClientInfo (clientInfoWire (clientInfoNew sk spk mk nonce)))) := by
  refine ⟨?_, ?_, ?_, ?_⟩
  · intro msg rest hget hne
    unfold read_server_key
    simp only [hget]
  · intro msg rest payload r2 skd hget hty hdec hskd hmag
    unfold read_server_key
    simp only [hget, hty, hdec, hskd]
    rw [if_neg hmag]
  · intro e he
    unfold exchange_keys
    rw [he]
  · intro spk hs
    unfold exchange_keys
    rw [hs]
    rfl

set_option maxRecDepth 100000 in
/-- Witness for C6: a valid `ServerKey` frame yields the server key and
the sealed `ClientInfo` frame; a `ServerInfo` frame first is refused. -/
theorem exchange_keys_spec_witness :
    exchange_keys (encodeFrame .ServerKey (DERP_MAGIC ++ publicOf skEx)) clientSkEx
        none nonceEx =
      .ok (publicOf skEx, encodeFrame .ClientInfo (clientInfoWire
        (clientInfoNew clientSkEx (publicOf skEx) none nonceEx))) ∧
    exchange_keys (encodeFrame .ServerInfo []) clientSkEx none nonceEx =
      .error (.unexpectedFrame .ServerInfo) := by
  constructor
  · exact (exchange_keys_spec _ clientSkEx none nonceEx).2.2.2 (publicOf skEx) (by decide)
  · have h1 := (exchange_keys_spec (encodeFrame .ServerInfo []) clientSkEx none nonceEx).1
      ⟨.ServerInfo, encodeFrame .ServerInfo []⟩ [] (by decide) (by decide)
    exact (exchange_keys_spec _ clientSkEx none nonceEx).2.2.1 _ h1


set_option maxRecDepth 40000 in
/-- Claim C8: header names are matched case-sensitively against the
exact strings `Upgrade` and `Connection`: a request whose headers are
`CONNECTION: close` and `upgrade: close` (disallowed values under
differently capitalized names) passes validation and the handshake
proceeds, while the same value under the exact name `Connection` is
rejected. -/
theorem header_name_case_sensitive_spec :
    validate_headers [⟨strBytes "CONNECTION", strBytes "close"⟩,
                      ⟨strBytes "upgrade", strBytes "close"⟩] = .ok () ∧
    validate_headers [⟨strBytes "Connection", strBytes "close"⟩] =
      .error .badConnectionValue ∧
    parseRequest (padBuf 4096 reqCaseEx) =
      some [⟨strBytes "CONNECTION", strBytes "close"⟩,
            ⟨strBytes "upgrade", strBytes "close"⟩] ∧
    finalize_http_phase reqCaseEx skEx = (.ok (), upgradeResponse skEx) :=
  ⟨by decide, by decide, by decide, by decide⟩

/-- Claim C10: the upgrade request is parsed with a fixed array of 16
header slots, so every well-formed request carrying more than 16 headers
fails the parse step and the handshake returns an error before any
response is written. -/
theorem too_many_headers_spec (method uri body : List Nat) (hs : List HttpHeader)
    (sk : SecretKey)
    (hm1 : method ≠ []) (hm2 : method.all isTokenChar = true)
    (hu1 : uri ≠ []) (hu2 : uri.all isUriChar = true)
    (hwf : ∀ h ∈ hs, wfHeader h) (hcount : 16 < hs.length)
    (hsize : (serializeRequest method uri hs body).length < 4096) :
    finalize_http_phase (serializeRequest method uri hs body) sk =
      (.error .httpParseError, []) := by
  have hne0 : (serializeRequest method uri hs body).length ≠ 0 := by
    unfold serializeRequest
    simp
  apply finalize_parse_none _ sk hne0 hsize
  have hpad : padBuf 4096 (serializeRequest method uri hs body) =
      serializeRequest method uri hs
        (body ++ List.replicate (4096 - (serializeRequest method uri hs body).length) 0) := by
    unfold padBuf
    rw [List.take_of_length_le (by omega)]
    unfold serializeRequest
    simp [List.append_assoc]
  rw [hpad]
  exact parseRequest_too_many method uri _ hs hm1 hm2 hu1 hu2 hwf hcount

set_option maxRecDepth 100000 in
/-- Witness for C10 at a concrete 17-header request. -/
theorem too_many_headers_spec_witness :
    finalize_http_phase (serializeRequest (strBytes "GET") (strBytes "/")
        (List.replicate 17 ⟨strBytes "X", strBytes "y"⟩) []) skEx =
      (.error .httpParseError, []) :=
  too_many_headers_spec (strBytes "GET") (strBytes "/")
    [] (List.replicate 17 ⟨strBytes "X", strBytes "y"⟩) skEx
    (by decide) (by decide) (by decide) (by decide) (by decide) (by decide) (by decide)
